import Mathlib

/-!
Verification development for the WarpDrive device-memory / kernel-dispatch
runtime (Device Data Store, Kernel Registry and Dispatcher, Episode Resetter,
Episode Logger, Action Sampler).

The repository ships the behaviour as tutorial notebooks; the manager classes
themselves (CUDADataManager, CUDAFunctionManager, the reset, log and sampler
services) are exercised but not included, so their operations are modelled
from the specification, as noted on each definition.  The cuda_increment
kernel is translated from the CUDA C source embedded in the basics notebook.

Numbers: device elements are 32-bit kinds.  Integers are modelled as
unbounded Int wrapped to 32 bits at normalization; the float64 to float32
cast is modelled as round-to-nearest at 23 fractional bits over Rat, which
realises the specification's element-kind normalization with a bounded
rounding error.
-/

/-- Modelled from the spec: a host-side element before the push-time
normalization, either a 64-bit integer or a 64-bit float (exact value as a
rational). -/
inductive HostVal where
  | i64 (v : Int)
  | f64 (v : ℚ)
deriving DecidableEq

/-- Modelled from the spec: a device-resident element, a 32-bit integer or a
32-bit float.  A float is held as its fixed-point significand on the
2 to the minus 23 grid: the constructor argument v denotes the real value
v / 2 ^ 23 (see devQ), realising the 32-bit kind's bounded precision with
kernel-computable integer arithmetic. -/
inductive DevVal where
  | i32 (v : Int)
  | f32 (v : Int)
deriving DecidableEq

/-- Modelled from the spec: wrap a 64-bit integer value to the 32-bit range,
as the narrowing cast does. -/
def wrap32 (z : Int) : Int :=
  (z + 2 ^ 31) % 2 ^ 32 - 2 ^ 31

/-- Modelled from the spec: the float64 to float32 narrowing, realised as
round-to-nearest onto the 23-fractional-bit grid (the result is the
fixed-point significand); it carries the bounded rounding error the data
manager's dtype normalization promises.  Computed by integer floor division
so that it evaluates inside the kernel; castF32_eq_floor gives the
round-to-nearest reading. -/
def castF32 (q : ℚ) : Int :=
  (q.num * 2 ^ 24 + q.den) / ((2 * q.den : ℕ) : Int)

/-- Modelled from the spec: element-kind normalization applied by the Device
Data Store on push (CUDA uses 32-bit representations of numbers). -/
def normalizeElem : HostVal → DevVal
  | HostVal.i64 v => DevVal.i32 (wrap32 v)
  | HostVal.f64 v => DevVal.f32 (castF32 v)

/-- The exact rational value carried by a device element. -/
def devQ : DevVal → ℚ
  | DevVal.i32 v => (v : ℚ)
  | DevVal.f32 v => (v : ℚ) / 2 ^ 23

/-- Modelled from the spec: errors of the data and function managers; all are
fatal configuration or data errors surfaced to the caller. -/
inductive DataError where
  | duplicateName (name : String)
  | unknownName (name : String)
  | geometryAlreadySet
  | moduleAlreadyLoaded
  | unresolvedEntryPoint (name : String)
deriving DecidableEq

deriving instance DecidableEq for Except

/-- Modelled from the spec: one device-resident array handle.  `vals` is the
time-indexed content: index 0 is the live, mutable current value; a logged
array has `episode_length` entries, any other array has exactly one. -/
structure DeviceArray where
  shape : List Nat
  vals : List (List DevVal)
  isLogged : Bool
  resetSnapshot : Option (List DevVal)
deriving DecidableEq

/-- Transfer Descriptor: one named host array plus the two behavioural flags,
as assembled by DataFeed.add_data in the notebook. -/
structure DataFeedItem where
  name : String
  shape : List Nat
  data : List HostVal
  save_copy_and_apply_at_reset : Bool
  log_data_across_episode : Bool
deriving DecidableEq

/-- A DataFeed is the ordered collection of descriptors to push. -/
abbrev DataFeed := List DataFeedItem

/-- DataFeed.add_data as in the notebook: both behavioural flags default to
false. -/
def DataFeed.add_data (feed : DataFeed) (name : String) (shape : List Nat)
    (data : List HostVal)
    (save_copy_and_apply_at_reset : Bool := false)
    (log_data_across_episode : Bool := false) : DataFeed :=
  feed ++ [⟨ name, shape, data, save_copy_and_apply_at_reset,
             log_data_across_episode ⟩]

/-- Modelled from the spec: the Device Data Store (CUDADataManager).  It owns
the named device arrays and the per-environment done flags driving the reset
protocol. -/
structure CUDADataManager where
  num_agents : Nat
  num_envs : Nat
  episode_length : Nat
  arrays : List (String × DeviceArray)
  done_flags : List Bool
deriving DecidableEq

/-- Name-keyed search in the allocation table. -/
def findArr : List (String × DeviceArray) → String → Option DeviceArray
  | [], _ => none
  | (k, a) :: rest, n => if n = k then some a else findArr rest n

/-- Modelled from the spec: materialize one descriptor as a device array:
normalize the payload's element kind, take the immutable reset snapshot when
requested, and when logging is requested allocate the time axis and zero-fill
every entry past index 0. -/
def mkDeviceArray (episodeLength : Nat) (d : DataFeedItem) : DeviceArray :=
  let nd := d.data.map normalizeElem
  { shape := d.shape
    vals :=
      if d.log_data_across_episode then
        nd :: List.replicate (episodeLength - 1)
          (List.replicate nd.length (DevVal.f32 0))
      else [nd]
    isLogged := d.log_data_across_episode
    resetSnapshot :=
      if d.save_copy_and_apply_at_reset then some nd else none }

/-- Modelled from the spec: push one descriptor; a name already present in
the store is a fatal duplicate-name error (this same rejection fires when a
payload is re-pushed under a known name with a disagreeing shape). -/
def pushOne (st : CUDADataManager) (d : DataFeedItem) :
    Except DataError CUDADataManager :=
  match findArr st.arrays d.name with
  | some _ => .error (DataError.duplicateName d.name)
  | none =>
      .ok { st with
              arrays := (d.name, mkDeviceArray st.episode_length d)
                          :: st.arrays }

/-- Modelled from the spec: push_data_to_device over a whole DataFeed; the
first failing descriptor aborts with its error, nothing is retried. -/
def push_data_to_device (st : CUDADataManager) :
    List DataFeedItem → Except DataError CUDADataManager
  | [] => .ok st
  | d :: ds =>
      match pushOne st d with
      | .error e => .error e
      | .ok st' => push_data_to_device st' ds

/-- Modelled from the spec: pull_data_from_device copies the current value of
the named array back to the host and returns it together with the (untouched)
store; an unknown name is a fatal error. -/
def pull_data_from_device (st : CUDADataManager) (name : String) :
    Except DataError (List DevVal × CUDADataManager) :=
  match findArr st.arrays name with
  | none => .error (DataError.unknownName name)
  | some a => .ok (a.vals.getD 0 [], st)

/-- The host copy produced by a pull (empty on error). -/
def pulled (st : CUDADataManager) (name : String) : List DevVal :=
  match pull_data_from_device st name with
  | .ok p => p.1
  | .error _ => []

/-- Modelled from the spec: get_device_pointer hands back the raw handle of
the named allocation without copying; an unknown name is a fatal error. -/
def get_device_pointer (st : CUDADataManager) (name : String) :
    Except DataError DeviceArray :=
  match findArr st.arrays name with
  | none => .error (DataError.unknownName name)
  | some a => .ok a

/-- The contiguous slice owned by environment `e` in a flattened array whose
per-environment slice has `k` elements. -/
def envSlice {α : Type} (k e : Nat) (l : List α) : List α :=
  (l.drop (e * k)).take k

/-- Rewrite one named array of the store in place, leaving the others
untouched. -/
def mapArray (name : String) (g : DeviceArray → DeviceArray)
    (st : CUDADataManager) : CUDADataManager :=
  { st with
      arrays := st.arrays.map (fun p =>
        if p.1 = name then (p.1, g p.2) else p) }

/-- Apply a kernel body to the live (index-0) value of one named array, in
place, as a dispatcher invocation does. -/
def invokeKernel (name : String) (f : List DevVal → List DevVal)
    (st : CUDADataManager) : CUDADataManager :=
  mapArray name
    (fun a => { a with vals := a.vals.set 0 (f (a.vals.getD 0 [])) }) st

/-- Modelled from the spec: the reset kernel's effect on one flat array, one
environment chunk of `k` elements at a time: a flagged environment's chunk is
overwritten from the snapshot, an unflagged one is left untouched. -/
def resetData {α : Type} (k : Nat) :
    List Bool → List α → List α → List α
  | [], _, d => d
  | f :: fs, s, d =>
      (if f then s.take k else d.take k)
        ++ resetData k fs (s.drop k) (d.drop k)

/-- Modelled from the spec: the Episode Resetter on a single array: arrays
without a snapshot are skipped; with a snapshot, the live value is rewritten
chunkwise from the snapshot for the flagged environments (the per-environment
slice size comes from the trailing dimensions of the shape). -/
def resetArray (flags : List Bool) (a : DeviceArray) : DeviceArray :=
  match a.resetSnapshot with
  | none => a
  | some snap =>
      { a with
          vals := a.vals.set 0
            (resetData ((a.shape.drop 1).prod) flags snap
              (a.vals.getD 0 [])) }

/-- Modelled from the spec: reset(done_flags): one invocation restores, for
every flagged environment, every snapshot-registered array to its snapshot
slice, and clears the done flags of the reset environments. -/
def reset (st : CUDADataManager) : CUDADataManager :=
  { st with
      arrays := st.arrays.map (fun p => (p.1, resetArray st.done_flags p.2))
      done_flags := st.done_flags.map (fun _ => false) }

/-- Mark one environment done (the simulation-side write into the done-flag
array that gates the reset protocol). -/
def markDone (e : Nat) (st : CUDADataManager) : CUDADataManager :=
  { st with done_flags := st.done_flags.set e true }

/-- Modelled from the spec: the Episode Logger's per-array step: a logged
array's current (index-0) value is copied into time index `t`; any other
array is untouched. -/
def logArrayStep (t : Nat) (a : DeviceArray) : DeviceArray :=
  if a.isLogged then { a with vals := a.vals.set t (a.vals.getD 0 []) }
  else a

/-- Modelled from the spec: log_step(t) copies, for every logged array, the
current value into time index `t` of its time axis. -/
def log_step (t : Nat) (st : CUDADataManager) : CUDADataManager :=
  { st with arrays := st.arrays.map (fun p => (p.1, logArrayStep t p.2)) }

/-- Modelled from the spec: fetch_episode performs one bulk pull of the whole
time axis of the named array. -/
def fetch_episode (st : CUDADataManager) (name : String) :
    List (List DevVal) :=
  ((findArr st.arrays name).map (fun a => a.vals)).getD []

/-- An episode run against one named array: at step `t` a kernel writes the
live value `v` (the value the array holds at the moment the logger runs) and
then log_step `t` records it; steps are numbered from the given start. -/
def runLog (name : String) :
    Nat → List (List DevVal) → CUDADataManager → CUDADataManager
  | _, [], st => st
  | t, v :: vs, st =>
      runLog name (t + 1) vs (log_step t (invokeKernel name (fun _ => v) st))

/-- The same episode run, expressed on the time-axis content of the logged
array alone: each step writes the live slot 0 and then slot `t`. -/
def arrayRun :
    Nat → List (List DevVal) → List (List DevVal) → List (List DevVal)
  | _, [], vals => vals
  | t, v :: vs, vals => arrayRun (t + 1) vs ((vals.set 0 v).set t v)

/-- Modelled from the spec: round `n` threads up to the device's
thread-per-group granularity `w` when `n` is not already a multiple. -/
def roundUpToWarp (w n : Nat) : Nat :=
  if n % w = 0 then n else (n / w + 1) * w

/-- Modelled from the spec: the Kernel Registry / Dispatcher
(CUDAFunctionManager): cached launch geometry, the loaded module and its
exported entry points. -/
structure CUDAFunctionManager where
  warp_size : Nat
  geometry : Option (Nat × Nat)
  module_loaded : Bool
  entry_points : List String
deriving DecidableEq

/-- Modelled from the spec: set_geometry fixes grid_dimensions to num_envs
and block_dimensions to num_agents rounded up to the thread-per-group
granularity, once; setting it twice is a fatal error. -/
def set_geometry (fm : CUDAFunctionManager) (num_envs num_agents : Nat) :
    Except DataError CUDAFunctionManager :=
  match fm.geometry with
  | some _ => .error DataError.geometryAlreadySet
  | none =>
      .ok { fm with
              geometry :=
                some (num_envs, roundUpToWarp fm.warp_size num_agents) }

/-- grid_dimensions of the cached geometry. -/
def grid_dimensions (fm : CUDAFunctionManager) : Nat :=
  ((fm.geometry).getD (0, 0)).1

/-- block_dimensions of the cached geometry. -/
def block_dimensions (fm : CUDAFunctionManager) : Nat :=
  ((fm.geometry).getD (0, 0)).2

/-- Modelled from the spec: load_cuda_from_source_code registers the module's
entry points; loading a second module under the same manager without an
explicit reset is a fatal error (a module is represented by the list of entry
points it exports). -/
def load_cuda_from_source_code (fm : CUDAFunctionManager)
    (entries : List String) : Except DataError CUDAFunctionManager :=
  if fm.module_loaded then .error DataError.moduleAlreadyLoaded
  else .ok { fm with module_loaded := true, entry_points := entries }

/-- Modelled from the spec: get_function binds an entry-point name to its
device-callable handle; an unresolved name is a fatal error. -/
def get_function (fm : CUDAFunctionManager) (name : String) :
    Except DataError String :=
  if name ∈ fm.entry_points then .ok name
  else .error (DataError.unresolvedEntryPoint name)

/-- The Dispatcher's shared row-major indexing utility, translated from the
documented device helper: Horner evaluation of the index against the
dimension list (last axis fastest). -/
def get_flattened_array_index (index_arr dim_arr : List Nat) : Nat :=
  (index_arr.zip dim_arr).foldl (fun acc p => acc * p.2 + p.1) 0

/-- The row-major offset as the specification writes it: the sum over axes of
the index times the product of all later dimension sizes. -/
def rowMajorOffset (index_arr dim_arr : List Nat) : Nat :=
  ((List.range index_arr.length).map
    (fun k => index_arr.getD k 0 * ((dim_arr.drop (k + 1)).prod))).sum

/-- Add an integer-valued float increment to a device element, as the
kernel's float update does (the kernel reads the buffer as float data; the
increment inc denotes the real value inc, i.e. inc * 2 ^ 23 fixed-point
units). -/
def addF32 (inc : Int) : DevVal → DevVal
  | DevVal.f32 v => DevVal.f32 (v + inc * 2 ^ 23)
  | DevVal.i32 v => DevVal.i32 v

/-- One thread of the cuda_increment kernel from the notebook source: thread
(env_id, agent_id) guards agent_id against num_agents and then adds
env_id + agent_id to data at env_id * num_agents + agent_id. -/
def cuda_increment_thread (num_agents env_id agent_id : Nat)
    (data : List DevVal) : List DevVal :=
  if agent_id < num_agents then
    let array_index := env_id * num_agents + agent_id
    data.set array_index
      (addF32 ((env_id + agent_id : Nat) : Int)
        (data.getD array_index (DevVal.f32 0)))
  else data

/-- The cuda_increment kernel launched on a gridDim x blockDim geometry; the
threads write disjoint indices, so the launch is their sequential
composition. -/
def cuda_increment (gridDim blockDim num_agents : Nat)
    (data : List DevVal) : List DevVal :=
  (List.range gridDim).foldl
    (fun d env_id =>
      (List.range blockDim).foldl
        (fun d2 agent_id =>
          cuda_increment_thread num_agents env_id agent_id d2) d)
    data

/-- Modelled from the spec: one step of the per-agent generator state (a
linear congruential step over the 32-bit range). -/
def rngNext (s : Nat) : Nat :=
  (1664525 * s + 1013904223) % 4294967296

/-- Modelled from the spec: draw an index from an unnormalized distribution
by walking the cumulative weights with the uniform draw `u`. -/
def pickFromDist : ℚ → List ℚ → Nat
  | _, [] => 0
  | u, p :: ps => if u < p then 0 else pickFromDist (u - p) ps + 1

/-- Modelled from the spec: one agent-thread's sample call: advance its own
generator state, normalize its own logits slice into a categorical
distribution, and draw one action index. -/
def sampleAgent (logits : List ℚ) (s : Nat) : Nat × Nat :=
  let s' := rngNext s
  let u : ℚ := (s' : ℚ) / 4294967296 * logits.sum
  (pickFromDist u logits, s')

/-- Modelled from the spec: one sampler invocation across all agent-threads:
agent `i` uses only its own logits slice and its own generator state. -/
def sampleStep (logitsAll : List (List ℚ)) (states : List Nat) :
    List Nat × List Nat :=
  (List.zipWith (fun l s => (sampleAgent l s).1) logitsAll states,
   List.zipWith (fun l s => (sampleAgent l s).2) logitsAll states)

/-- Modelled from the spec: a run of the Action Sampler: the per-agent states
persist across calls; each call appends the sampled per-agent actions. -/
def runSampler (states : List Nat) :
    List (List (List ℚ)) → List (List Nat)
  | [] => []
  | call :: calls =>
      (sampleStep call states).1
        :: runSampler (sampleStep call states).2 calls

/-- Unwrap a successful store operation (fallback on error); used to name the
concrete stores of the worked examples. -/
def getOkStore (r : Except DataError CUDADataManager)
    (fallback : CUDADataManager) : CUDADataManager :=
  match r with
  | .ok s => s
  | .error _ => fallback

/-- The basics-notebook setting: 3 agents, 2 environment replicas, episode
length 5, nothing pushed yet. -/
def tutorialStore : CUDADataManager :=
  ⟨ 3, 2, 5, [], [false, false] ⟩

/-- The (2 envs, 3 agents) float array of zeros, pushed with a reset
snapshot. -/
def incrementItem : DataFeedItem :=
  ⟨ "random_data", [2, 3], List.replicate 6 (HostVal.f64 0), true, false ⟩

/-- Store after pushing the zero array. -/
def stepStore0 : CUDADataManager :=
  getOkStore (push_data_to_device tutorialStore [incrementItem]) tutorialStore

/-- Store after one cuda_increment launch. -/
def stepStore1 : CUDADataManager :=
  invokeKernel "random_data" (cuda_increment 2 3 3) stepStore0

/-- Store after a second cuda_increment launch. -/
def stepStore2 : CUDADataManager :=
  invokeKernel "random_data" (cuda_increment 2 3 3) stepStore1

/-- Store after marking environment 0 done and resetting. -/
def resetStore : CUDADataManager :=
  reset (markDone 0 stepStore2)

/-- A small two-environment array with a reset snapshot, environment 0
flagged done. -/
def c2Arr : DeviceArray :=
  ⟨ [2, 1], [[DevVal.f32 5, DevVal.f32 6]], false,
    some [DevVal.f32 0, DevVal.f32 1] ⟩

/-- Store holding c2Arr with done flags [true, false]. -/
def c2Store : CUDADataManager :=
  ⟨ 1, 2, 1, [("a", c2Arr)], [true, false] ⟩

/-- Store with a snapshot array and all-false done flags. -/
def c6Store : CUDADataManager :=
  ⟨ 1, 2, 1,
    [("s", ⟨ [2, 1], [[DevVal.f32 3, DevVal.f32 4]], false,
             some [DevVal.f32 0, DevVal.f32 1] ⟩)],
    [false, false] ⟩

/-- Fresh one-agent store for the push/pull example. -/
def c1Store : CUDADataManager :=
  ⟨ 1, 1, 1, [], [false] ⟩

/-- Descriptor with one float and one integer element. -/
def c1Item : DataFeedItem :=
  ⟨ "w", [1, 2], [HostVal.f64 3, HostVal.i64 3], false, false ⟩

/-- Store after pushing c1Item. -/
def c1Pushed : CUDADataManager :=
  getOkStore (push_data_to_device c1Store [c1Item]) c1Store

/-- Fresh one-env store with episode length 2 for the logging example. -/
def c7Store : CUDADataManager :=
  ⟨ 1, 1, 2, [], [false] ⟩

/-- A one-element logged array descriptor. -/
def c7Item : DataFeedItem :=
  ⟨ "x", [1, 1], [HostVal.f64 0], false, true ⟩

/-- Store after pushing the logged array. -/
def c7Pushed : CUDADataManager :=
  getOkStore (push_data_to_device c7Store [c7Item]) c7Store

/-- The live values the array holds at the moment of log_step 0 and of
log_step 1. -/
def c7Vals : List (List DevVal) :=
  [[DevVal.f32 0], [DevVal.f32 1]]

/-- Store after the two-step logged episode. -/
def c7Final : CUDADataManager :=
  runLog "x" 0 c7Vals c7Pushed

/-- A store already holding an array named a, for the duplicate-push
example. -/
def dupStore : CUDADataManager :=
  ⟨ 1, 1, 1,
    [("a", ⟨ [1, 1], [[DevVal.f32 0]], false, none ⟩)], [false] ⟩

/-- A function manager whose geometry is already set and whose module is
already loaded. -/
def fmLoaded : CUDAFunctionManager :=
  ⟨ 32, some (2, 32), true, ["cuda_increment"] ⟩

/-- A fresh function manager with warp size 32. -/
def fmFresh : CUDAFunctionManager :=
  ⟨ 32, none, false, [] ⟩

/-- The manager produced by setting geometry (2 envs, 3 agents) on fmFresh. -/
def fmSet : CUDAFunctionManager :=
  ⟨ 32, some (2, 32), false, [] ⟩

/-- Base store for the default-flag push example. -/
def c10Base : CUDADataManager :=
  ⟨ 1, 1, 1, [], [false] ⟩

/-- Store after pushing a feed built by add_data with default flags. -/
def c10Pushed : CUDADataManager :=
  getOkStore
    (push_data_to_device c10Base
      (DataFeed.add_data [] "y" [1, 1] [HostVal.f64 0]))
    c10Base

/-- First run's per-call logits: agent 0 and agent 1 slices. -/
def c8CallsA : List (List (List ℚ)) :=
  [[[1, 1], [2, 1]]]

/-- Second run's per-call logits: agent 0 differs, agent 1 agrees. -/
def c8CallsB : List (List (List ℚ)) :=
  [[[9], [2, 1]]]

/-- The float32 device element whose real value is the integer n (that is,
significand n * 2 ^ 23 on the fixed-point grid; devQ (qf n) = n). -/
def qf (n : Int) : DevVal :=
  DevVal.f32 (n * 2 ^ 23)

theorem getD_set_self {α : Type} (x d : α) :
    ∀ (l : List α) (i : Nat), i < l.length → (l.set i x).getD i d = x := by
  intro l
  induction l with
  | nil => intro i h; simp at h
  | cons a t ih =>
    intro i h
    cases i with
    | zero => rfl
    | succ n => exact ih n (by simpa using h)

theorem getD_set_other {α : Type} (x d : α) :
    ∀ (l : List α) (i j : Nat), i ≠ j →
      (l.set i x).getD j d = l.getD j d := by
  intro l
  induction l with
  | nil => intro i j _; rfl
  | cons a t ih =>
    intro i j hij
    cases i with
    | zero =>
      cases j with
      | zero => exact absurd rfl hij
      | succ m => rfl
    | succ n =>
      cases j with
      | zero => rfl
      | succ m => exact ih n m (by omega)

theorem set_zero_getD_self {α : Type} (l : List α) (d : α) :
    l.set 0 (l.getD 0 d) = l := by
  cases l <;> rfl

theorem getD_replicate_lt {α : Type} (x d : α) :
    ∀ (n i : Nat), i < n → (List.replicate n x).getD i d = x := by
  intro n
  induction n with
  | zero => intro i h; omega
  | succ m ih =>
    intro i h
    cases i with
    | zero => rfl
    | succ k => exact ih k (by omega)

theorem getD_map_const_false :
    ∀ (l : List Bool) (e : Nat),
      (l.map (fun _ => false)).getD e false = false := by
  intro l
  induction l with
  | nil => intro e; rfl
  | cons b t ih =>
    intro e
    cases e with
    | zero => rfl
    | succ m => exact ih m

theorem map_id_of_mem {α : Type} (f : α → α) :
    ∀ (l : List α), (∀ x ∈ l, f x = x) → l.map f = l := by
  intro l
  induction l with
  | nil => intro _; rfl
  | cons a t ih =>
    intro h
    have ha : f a = a := h a (List.mem_cons_self a t)
    have ht := ih (fun x hx => h x (List.mem_cons_of_mem a hx))
    simp [ha, ht]

theorem getD_zipWith {α β γ : Type} (f : α → β → γ) (da : α) (db : β)
    (dc : γ) :
    ∀ (as : List α) (bs : List β) (i : Nat),
      i < as.length → i < bs.length →
      (List.zipWith f as bs).getD i dc = f (as.getD i da) (bs.getD i db) := by
  intro as
  induction as with
  | nil => intro bs i h _; simp at h
  | cons a t ih =>
    intro bs i h1 h2
    cases bs with
    | nil => simp at h2
    | cons b u =>
      cases i with
      | zero => rfl
      | succ n => exact ih u n (by simpa using h1) (by simpa using h2)

theorem findArr_map_pairs (g : DeviceArray → DeviceArray) :
    ∀ (l : List (String × DeviceArray)) (n : String),
      findArr (l.map (fun p => (p.1, g p.2))) n = (findArr l n).map g := by
  intro l
  induction l with
  | nil => intro n; rfl
  | cons p rest ih =>
    intro n
    obtain ⟨k, a⟩ := p
    by_cases h : n = k <;> simp [findArr, h, ih]

theorem findArr_cons_self (n : String) (a : DeviceArray)
    (l : List (String × DeviceArray)) :
    findArr ((n, a) :: l) n = some a := by
  simp [findArr]

theorem findArr_mapArray_self (name : String) (g : DeviceArray → DeviceArray) :
    ∀ (l : List (String × DeviceArray)) (a : DeviceArray),
      findArr l name = some a →
      findArr (l.map (fun p => if p.1 = name then (p.1, g p.2) else p)) name
        = some (g a) := by
  intro l
  induction l with
  | nil => intro a h; simp [findArr] at h
  | cons p rest ih =>
    intro a h
    obtain ⟨k, b⟩ := p
    rw [List.map_cons]
    by_cases hk : name = k
    · subst hk
      rw [findArr, if_pos rfl] at h
      cases h
      show findArr
        ((if (name, a).1 = name then ((name, a).1, g a) else (name, a)) ::
          rest.map (fun p => if p.1 = name then (p.1, g p.2) else p)) name
        = some (g a)
      rw [if_pos rfl]
      exact findArr_cons_self name (g a) _
    · have hk2 : ¬ ((k, b).1 = name) := fun hh => hk hh.symm
      rw [findArr, if_neg hk] at h
      show findArr
        ((if (k, b).1 = name then ((k, b).1, g b) else (k, b)) ::
          rest.map (fun p => if p.1 = name then (p.1, g p.2) else p)) name
        = some (g a)
      rw [if_neg hk2, findArr, if_neg hk]
      exact ih a h

theorem resetData_all_false {α : Type} (k : Nat) :
    ∀ (fs : List Bool) (s d : List α),
      (∀ f ∈ fs, f = false) → resetData k fs s d = d := by
  intro fs
  induction fs with
  | nil => intro s d _; rfl
  | cons f fs ih =>
    intro s d h
    have hf : f = false := h f (List.mem_cons_self f fs)
    have ih' := ih (s.drop k) (d.drop k)
      (fun g hg => h g (List.mem_cons_of_mem f hg))
    subst hf
    show (if false then s.take k else d.take k)
        ++ resetData k fs (s.drop k) (d.drop k) = d
    rw [if_neg (by simp), ih']
    exact List.take_append_drop k d

theorem envSlice_resetData_flagged {α : Type} (k : Nat) :
    ∀ (e : Nat) (fs : List Bool) (s d : List α),
      e < fs.length → fs.getD e false = true →
      (e + 1) * k ≤ s.length → (e + 1) * k ≤ d.length →
      envSlice k e (resetData k fs s d) = envSlice k e s := by
  intro e
  induction e with
  | zero =>
    intro fs s d hlen hget hs hd
    cases fs with
    | nil => simp at hlen
    | cons f fs' =>
      have hf : f = true := by simpa using hget
      subst hf
      have hsk : k ≤ s.length := by simpa using hs
      have htl : (s.take k).length = k := by
        simp [List.length_take]; omega
      show envSlice k 0
        ((if true then s.take k else d.take k)
          ++ resetData k fs' (s.drop k) (d.drop k)) = envSlice k 0 s
      rw [if_pos rfl]
      unfold envSlice
      simp only [Nat.zero_mul, List.drop_zero]
      rw [List.take_left' htl]
  | succ e ih =>
    intro fs s d hlen hget hs hd
    cases fs with
    | nil => simp at hlen
    | cons f fs' =>
      have hmul : (e + 1 + 1) * k = (e + 1) * k + k := by ring
      have hs' : (e + 1) * k + k ≤ s.length := by rw [hmul] at hs; exact hs
      have hd' : (e + 1) * k + k ≤ d.length := by rw [hmul] at hd; exact hd
      have hsk : k ≤ s.length := by omega
      have hdk : k ≤ d.length := by omega
      have hchunk : (if f then s.take k else d.take k).length = k := by
        cases f <;> simp [List.length_take] <;> omega
      show envSlice k (e + 1)
        ((if f then s.take k else d.take k)
          ++ resetData k fs' (s.drop k) (d.drop k)) = envSlice k (e + 1) s
      unfold envSlice
      have hidx : (e + 1) * k = k + e * k := by ring
      rw [hidx, ← List.drop_drop, ← List.drop_drop, List.drop_left' hchunk]
      have hrec := ih fs' (s.drop k) (d.drop k)
        (by simpa using hlen) (by simpa using hget)
        (by simp only [List.length_drop]; omega)
        (by simp only [List.length_drop]; omega)
      simpa [envSlice] using hrec

theorem envSlice_resetData_unflagged {α : Type} (k : Nat) :
    ∀ (e : Nat) (fs : List Bool) (s d : List α),
      e < fs.length → fs.getD e false = false →
      (e + 1) * k ≤ s.length → (e + 1) * k ≤ d.length →
      envSlice k e (resetData k fs s d) = envSlice k e d := by
  intro e
  induction e with
  | zero =>
    intro fs s d hlen hget hs hd
    cases fs with
    | nil => simp at hlen
    | cons f fs' =>
      have hf : f = false := by simpa using hget
      subst hf
      have hdk : k ≤ d.length := by simpa using hd
      have htl : (d.take k).length = k := by
        simp [List.length_take]; omega
      show envSlice k 0
        ((if false then s.take k else d.take k)
          ++ resetData k fs' (s.drop k) (d.drop k)) = envSlice k 0 d
      rw [if_neg (by simp)]
      unfold envSlice
      simp only [Nat.zero_mul, List.drop_zero]
      rw [List.take_left' htl]
  | succ e ih =>
    intro fs s d hlen hget hs hd
    cases fs with
    | nil => simp at hlen
    | cons f fs' =>
      have hmul : (e + 1 + 1) * k = (e + 1) * k + k := by ring
      have hs' : (e + 1) * k + k ≤ s.length := by rw [hmul] at hs; exact hs
      have hd' : (e + 1) * k + k ≤ d.length := by rw [hmul] at hd; exact hd
      have hsk : k ≤ s.length := by omega
      have hdk : k ≤ d.length := by omega
      have hchunk : (if f then s.take k else d.take k).length = k := by
        cases f <;> simp [List.length_take] <;> omega
      show envSlice k (e + 1)
        ((if f then s.take k else d.take k)
          ++ resetData k fs' (s.drop k) (d.drop k)) = envSlice k (e + 1) d
      unfold envSlice
      have hidx : (e + 1) * k = k + e * k := by ring
      rw [hidx, ← List.drop_drop, ← List.drop_drop, List.drop_left' hchunk]
      have hrec := ih fs' (s.drop k) (d.drop k)
        (by simpa using hlen) (by simpa using hget)
        (by simp only [List.length_drop]; omega)
        (by simp only [List.length_drop]; omega)
      simpa [envSlice] using hrec

theorem arrayRun_getD_untouched :
    ∀ (vs : List (List DevVal)) (t0 : Nat) (vals : List (List DevVal))
      (u : Nat), u ≠ 0 → (u < t0 ∨ t0 + vs.length ≤ u) →
      (arrayRun t0 vs vals).getD u [] = vals.getD u [] := by
  intro vs
  induction vs with
  | nil => intro t0 vals u _ _; rfl
  | cons v vs ih =>
    intro t0 vals u hu hrange
    show (arrayRun (t0 + 1) vs ((vals.set 0 v).set t0 v)).getD u []
      = vals.getD u []
    rw [ih (t0 + 1) _ u hu (by simp only [List.length_cons] at hrange; omega)]
    rw [getD_set_other _ _ _ t0 u (by simp only [List.length_cons] at hrange; omega)]
    rw [getD_set_other _ _ _ 0 u (by omega)]

theorem arrayRun_getD_written :
    ∀ (vs : List (List DevVal)) (t0 : Nat) (vals : List (List DevVal))
      (j : Nat), j < vs.length → 0 < t0 + j → t0 + j < vals.length →
      (arrayRun t0 vs vals).getD (t0 + j) [] = vs.getD j [] := by
  intro vs
  induction vs with
  | nil => intro t0 vals j hj _ _; simp at hj
  | cons v vs ih =>
    intro t0 vals j hj hpos hlen
    cases j with
    | zero =>
      show (arrayRun (t0 + 1) vs ((vals.set 0 v).set t0 v)).getD (t0 + 0) []
        = (v :: vs).getD 0 []
      rw [arrayRun_getD_untouched vs (t0 + 1) _ (t0 + 0) (by omega)
        (Or.inl (by omega))]
      show ((vals.set 0 v).set t0 v).getD t0 [] = v
      exact getD_set_self v [] _ t0 (by simp [List.length_set]; omega)
    | succ j =>
      show (arrayRun (t0 + 1) vs ((vals.set 0 v).set t0 v)).getD
          (t0 + (j + 1)) [] = (v :: vs).getD (j + 1) []
      have harr : t0 + (j + 1) = (t0 + 1) + j := by omega
      rw [harr]
      rw [ih (t0 + 1) _ j (by simpa using hj) (by omega)
        (by simp only [List.length_set]; omega)]
      rfl

theorem arrayRun_getD_zero :
    ∀ (vs : List (List DevVal)) (t0 : Nat) (vals : List (List DevVal)),
      vs ≠ [] → 0 < vals.length →
      (arrayRun t0 vs vals).getD 0 [] = vs.getD (vs.length - 1) [] := by
  intro vs
  induction vs with
  | nil => intro t0 vals h _; exact absurd rfl h
  | cons v vs ih =>
    intro t0 vals _ hlen
    cases vs with
    | nil =>
      show (arrayRun (t0 + 1) [] ((vals.set 0 v).set t0 v)).getD 0 []
        = ([v] : List (List DevVal)).getD 0 []
      show ((vals.set 0 v).set t0 v).getD 0 [] = v
      by_cases ht : t0 = 0
      · subst ht
        exact getD_set_self v [] _ 0 (by simp [List.length_set]; omega)
      · rw [getD_set_other _ _ _ t0 0 ht]
        exact getD_set_self v [] _ 0 hlen
    | cons v' vs' =>
      show (arrayRun (t0 + 1) (v' :: vs') ((vals.set 0 v).set t0 v)).getD 0 []
        = (v :: v' :: vs').getD ((v :: v' :: vs').length - 1) []
      rw [ih (t0 + 1) _ (by simp) (by simp [List.length_set]; omega)]
      simp only [List.length_cons, Nat.succ_sub_one]
      rfl

theorem findArr_mapArray (name : String) (g : DeviceArray → DeviceArray)
    (st : CUDADataManager) (a : DeviceArray)
    (h : findArr st.arrays name = some a) :
    findArr (mapArray name g st).arrays name = some (g a) :=
  findArr_mapArray_self name g st.arrays a h

theorem runLog_findArr (name : String) :
    ∀ (vs : List (List DevVal)) (t0 : Nat) (st : CUDADataManager)
      (a : DeviceArray),
      findArr st.arrays name = some a → a.isLogged = true →
      0 < a.vals.length →
      findArr (runLog name t0 vs st).arrays name
        = some { a with vals := arrayRun t0 vs a.vals } := by
  intro vs
  induction vs with
  | nil =>
    intro t0 st a h _ _
    exact h
  | cons v vs ih =>
    intro t0 st a hfind hlog hlen
    have h1 : findArr (invokeKernel name (fun _ => v) st).arrays name
        = some { a with vals := a.vals.set 0 v } :=
      findArr_mapArray name
        (fun b => { b with vals := b.vals.set 0 ((fun _ => v) (b.vals.getD 0 [])) })
        st a hfind
    have h2 : findArr (log_step t0 (invokeKernel name (fun _ => v) st)).arrays
        name = some (logArrayStep t0 { a with vals := a.vals.set 0 v }) := by
      show findArr
        ((invokeKernel name (fun _ => v) st).arrays.map
          (fun p => (p.1, logArrayStep t0 p.2))) name
        = some (logArrayStep t0 { a with vals := a.vals.set 0 v })
      rw [findArr_map_pairs (logArrayStep t0) _ name, h1]
      rfl
    have h3 : logArrayStep t0 { a with vals := a.vals.set 0 v }
        = { a with vals := (a.vals.set 0 v).set t0 v } := by
      have hgd : (a.vals.set 0 v).getD 0 [] = v :=
        getD_set_self v [] a.vals 0 hlen
      have hgd' : ((a.vals.set 0 v)[0]?).getD [] = v := by
        rw [← List.getD_eq_getElem?_getD]
        exact hgd
      simp [logArrayStep, hlog, hgd']
    show findArr
      (runLog name (t0 + 1) vs
        (log_step t0 (invokeKernel name (fun _ => v) st))).arrays name
      = some { a with vals := arrayRun (t0 + 1) vs ((a.vals.set 0 v).set t0 v) }
    exact ih (t0 + 1) _ { a with vals := (a.vals.set 0 v).set t0 v }
      (by rw [h2, h3]) hlog
      (by simp only [List.length_set]; exact hlen)

theorem le_roundUpToWarp (w n : Nat) (hw : 0 < w) : n ≤ roundUpToWarp w n := by
  unfold roundUpToWarp
  split
  · exact le_refl n
  · have h1 : n % w < w := Nat.mod_lt n hw
    have h2 : w * (n / w) + n % w = n := Nat.div_add_mod n w
    have h3 : n < w * (n / w) + w := by omega
    have h4 : w * (n / w) + w = (n / w + 1) * w := by ring
    omega

theorem roundUpToWarp_mod (w n : Nat) : roundUpToWarp w n % w = 0 := by
  unfold roundUpToWarp
  split
  · assumption
  · exact Nat.mul_mod_left (n / w + 1) w

theorem roundUpToWarp_exact (w n : Nat) (h : n % w = 0) :
    roundUpToWarp w n = n := by
  unfold roundUpToWarp
  rw [if_pos h]

theorem castF32_eq_floor (q : ℚ) : castF32 q = ⌊q * 2 ^ 23 + 1 / 2⌋ := by
  unfold castF32
  rw [← Rat.floor_intCast_div_natCast (q.num * 2 ^ 24 + q.den) (2 * q.den)]
  congr 1
  have hden : ((q.den : ℚ)) ≠ 0 := by
    exact_mod_cast q.den_nz
  conv_rhs => rw [← Rat.num_div_den q]
  push_cast
  field_simp
  ring

theorem castF32_error_bound (q : ℚ) :
    |(castF32 q : ℚ) / 2 ^ 23 - q| ≤ 1 / 2 ^ 24 := by
  rw [castF32_eq_floor]
  have h1 : (⌊q * 2 ^ 23 + 1 / 2⌋ : ℚ) ≤ q * 2 ^ 23 + 1 / 2 :=
    Int.floor_le _
  have h2 : q * 2 ^ 23 + 1 / 2 - 1 < (⌊q * 2 ^ 23 + 1 / 2⌋ : ℚ) :=
    Int.sub_one_lt_floor _
  have key : |(⌊q * 2 ^ 23 + 1 / 2⌋ : ℚ) - q * 2 ^ 23| ≤ 1 / 2 := by
    rw [abs_le]
    constructor <;> linarith
  have hrw : (⌊q * 2 ^ 23 + 1 / 2⌋ : ℚ) / 2 ^ 23 - q
      = ((⌊q * 2 ^ 23 + 1 / 2⌋ : ℚ) - q * 2 ^ 23) / 2 ^ 23 := by
    field_simp
    ring
  calc |(⌊q * 2 ^ 23 + 1 / 2⌋ : ℚ) / 2 ^ 23 - q|
      = |(⌊q * 2 ^ 23 + 1 / 2⌋ : ℚ) - q * 2 ^ 23| / 2 ^ 23 := by
        rw [hrw, abs_div]
        norm_num
    _ ≤ (1 / 2) / 2 ^ 23 := by gcongr
    _ = 1 / 2 ^ 24 := by norm_num

theorem wrap32_id (z : Int) (h1 : -(2 ^ 31) ≤ z) (h2 : z < 2 ^ 31) :
    wrap32 z = z := by
  unfold wrap32
  have hmod : (z + 2 ^ 31) % 2 ^ 32 = z + 2 ^ 31 :=
    Int.emod_eq_of_lt (by omega) (by omega)
  omega

theorem rowMajorOffset_cons (n : Nat) (idx : List Nat) (N : Nat)
    (dims : List Nat) :
    rowMajorOffset (n :: idx) (N :: dims)
      = n * dims.prod + rowMajorOffset idx dims := by
  unfold rowMajorOffset
  rw [List.length_cons, List.range_succ_eq_map, List.map_cons, List.map_map]
  rfl

theorem horner_zip :
    ∀ (idx dims : List Nat) (acc : Nat), idx.length = dims.length →
      (idx.zip dims).foldl (fun a p => a * p.2 + p.1) acc
        = acc * dims.prod + rowMajorOffset idx dims := by
  intro idx
  induction idx with
  | nil =>
    intro dims acc h
    cases dims with
    | nil => simp [rowMajorOffset]
    | cons N dims => simp at h
  | cons n idx ih =>
    intro dims acc h
    cases dims with
    | nil => simp at h
    | cons N dims =>
      rw [List.zip_cons_cons, List.foldl_cons,
        ih dims (acc * N + n) (by simpa using h), rowMajorOffset_cons,
        List.prod_cons]
      ring

theorem resetArray_of_snap (flags : List Bool) (a : DeviceArray)
    (snap : List DevVal) (h : a.resetSnapshot = some snap) :
    resetArray flags a
      = { a with
            vals := a.vals.set 0
              (resetData ((a.shape.drop 1).prod) flags snap
                (a.vals.getD 0 [])) } := by
  unfold resetArray
  rw [h]

theorem resetArray_of_none (flags : List Bool) (a : DeviceArray)
    (h : a.resetSnapshot = none) : resetArray flags a = a := by
  unfold resetArray
  rw [h]


/-- Claim C3: for every (num_envs, num_agents) pair with which the launch
geometry is set, the cached geometry has grid_dimensions equal to num_envs
and block_dimensions at least num_agents; block_dimensions is num_agents
rounded up to the device's thread-per-group granularity when necessary
(always a multiple of it, and exactly num_agents when no rounding is
needed), never fewer threads per group than agents. -/
theorem set_geometry_grid_block
    (fm fm' : CUDAFunctionManager) (num_envs num_agents : Nat)
    (hw : 0 < fm.warp_size)
    (hset : set_geometry fm num_envs num_agents = .ok fm') :
    grid_dimensions fm' = num_envs
    ∧ num_agents ≤ block_dimensions fm'
    ∧ block_dimensions fm' = roundUpToWarp fm.warp_size num_agents
    ∧ block_dimensions fm' % fm.warp_size = 0
    ∧ (num_agents % fm.warp_size = 0 →
        block_dimensions fm' = num_agents) := by
  cases hgeo : fm.geometry with
  | some g => simp [set_geometry, hgeo] at hset
  | none =>
    simp only [set_geometry, hgeo, Except.ok.injEq] at hset
    subst hset
    refine ⟨rfl, ?_, rfl, ?_, ?_⟩
    · exact le_roundUpToWarp _ _ hw
    · exact roundUpToWarp_mod _ _
    · intro h
      show roundUpToWarp fm.warp_size num_agents = num_agents
      exact roundUpToWarp_exact _ _ h

theorem set_geometry_grid_block_witness :
    grid_dimensions fmSet = 2 ∧ 3 ≤ block_dimensions fmSet := by
  obtain ⟨h1, h2, h3, h4, h5⟩ :=
    set_geometry_grid_block fmFresh fmSet 2 3 (by decide) (by decide)
  exact ⟨h1, h2⟩

/-- Claim C4: for every d-dimensional array and every in-bounds index, the
shared indexing utility get_flattened_array_index returns the row-major
(last-axis-fastest) linear offset, the sum over axes of the index times the
product of the later dimension sizes; in particular a 2-dimensional array of
shape (L, M) maps the element at i, j to offset i * M + j. -/
theorem flattened_index_row_major
    (index_arr dim_arr : List Nat)
    (hlen : index_arr.length = dim_arr.length)
    (hbound : ∀ i, i < index_arr.length →
      index_arr.getD i 0 < dim_arr.getD i 0) :
    get_flattened_array_index index_arr dim_arr
      = rowMajorOffset index_arr dim_arr
    ∧ ∀ (i j L M : Nat),
        get_flattened_array_index [i, j] [L, M] = i * M + j := by
  constructor
  · unfold get_flattened_array_index
    rw [horner_zip index_arr dim_arr 0 hlen]
    simp
  · intro i j L M
    show (0 * L + i) * M + j = i * M + j
    ring

theorem flattened_index_row_major_witness :
    get_flattened_array_index [1, 2] [2, 3]
      = rowMajorOffset [1, 2] [2, 3]
    ∧ get_flattened_array_index [5, 7] [9, 11] = 5 * 11 + 7 := by
  obtain ⟨h1, h2⟩ := flattened_index_row_major [1, 2] [2, 3] (by decide)
    (by decide)
  exact ⟨h1, h2 5 7 9 11⟩

/-- Claim C6: invoking reset while every done flag is false is a no-op: every
device-resident array, and the store as a whole, is bit-identical to its
value before the call. -/
theorem reset_noop_when_no_env_done (st : CUDADataManager)
    (h : ∀ f ∈ st.done_flags, f = false) : reset st = st := by
  have h1 : st.arrays.map (fun p => (p.1, resetArray st.done_flags p.2))
      = st.arrays := by
    apply map_id_of_mem
    intro p _
    have hr : resetArray st.done_flags p.2 = p.2 := by
      cases hsnap : p.2.resetSnapshot with
      | none => exact resetArray_of_none _ _ hsnap
      | some snap =>
        rw [resetArray_of_snap _ _ snap hsnap,
          resetData_all_false _ st.done_flags snap _ h, set_zero_getD_self]
    rw [hr]
  have h2 : st.done_flags.map (fun _ => false) = st.done_flags :=
    map_id_of_mem _ _ (fun b hb => (h b hb).symm)
  unfold reset
  rw [h1, h2]

theorem reset_noop_when_no_env_done_witness : reset c6Store = c6Store :=
  reset_noop_when_no_env_done c6Store (by decide)

/-- Claim C9: pushing a duplicate name, re-pushing under a known name with a
disagreeing shape, pulling or pointer-querying an unknown name, setting the
launch geometry twice, loading a second module without an explicit reset,
and resolving an unregistered entry point each return an immediate fatal
error to the caller; every operation is a single call that surfaces the
error, never a retry. -/
theorem configuration_errors_fatal :
    (∀ (st : CUDADataManager) (d : DataFeedItem) (b : DeviceArray),
       findArr st.arrays d.name = some b →
       pushOne st d = .error (DataError.duplicateName d.name))
    ∧ (∀ (st : CUDADataManager) (d : DataFeedItem) (b : DeviceArray),
       findArr st.arrays d.name = some b → b.shape ≠ d.shape →
       pushOne st d = .error (DataError.duplicateName d.name))
    ∧ (∀ (st : CUDADataManager) (n : String), findArr st.arrays n = none →
       pull_data_from_device st n = .error (DataError.unknownName n))
    ∧ (∀ (st : CUDADataManager) (n : String), findArr st.arrays n = none →
       get_device_pointer st n = .error (DataError.unknownName n))
    ∧ (∀ (fm : CUDAFunctionManager) (g : Nat × Nat) (ne na : Nat),
       fm.geometry = some g →
       set_geometry fm ne na = .error DataError.geometryAlreadySet)
    ∧ (∀ (fm : CUDAFunctionManager) (entries : List String),
       fm.module_loaded = true →
       load_cuda_from_source_code fm entries
         = .error DataError.moduleAlreadyLoaded)
    ∧ (∀ (fm : CUDAFunctionManager) (n : String), n ∉ fm.entry_points →
       get_function fm n = .error (DataError.unresolvedEntryPoint n)) := by
  refine ⟨?_, ?_, ?_, ?_, ?_, ?_, ?_⟩
  · intro st d b h
    simp [pushOne, h]
  · intro st d b h _
    simp [pushOne, h]
  · intro st n h
    simp [pull_data_from_device, h]
  · intro st n h
    simp [get_device_pointer, h]
  · intro fm g ne na h
    simp [set_geometry, h]
  · intro fm entries h
    simp [load_cuda_from_source_code, h]
  · intro fm n h
    simp [get_function, h]

theorem configuration_errors_fatal_witness :
    pushOne dupStore ⟨ "a", [9, 9], [], false, false ⟩
      = .error (DataError.duplicateName "a")
    ∧ pull_data_from_device dupStore "zz"
      = .error (DataError.unknownName "zz")
    ∧ get_device_pointer dupStore "zz"
      = .error (DataError.unknownName "zz")
    ∧ set_geometry fmLoaded 4 4 = .error DataError.geometryAlreadySet
    ∧ load_cuda_from_source_code fmLoaded ["other"]
      = .error DataError.moduleAlreadyLoaded
    ∧ get_function fmLoaded "missing"
      = .error (DataError.unresolvedEntryPoint "missing") := by
  obtain ⟨e1, e2, e3, e4, e5, e6, e7⟩ := configuration_errors_fatal
  exact ⟨e2 dupStore ⟨ "a", [9, 9], [], false, false ⟩
      ⟨ [1, 1], [[DevVal.f32 0]], false, none ⟩ (by decide) (by decide),
    e3 dupStore "zz" (by decide),
    e4 dupStore "zz" (by decide),
    e5 fmLoaded (2, 32) 4 4 (by decide),
    e6 fmLoaded ["other"] (by decide),
    e7 fmLoaded "missing" (by decide)⟩

/-- Claim C1: for every array pushed under a fresh name, pulling that name
immediately afterwards (no kernel in between) returns exactly the pushed
payload after element-kind normalization, and the pull leaves the whole
device store untouched; the normalization reproduces 64-bit float input as
the 32-bit kind within a 2 to the minus 24 rounding error and reproduces
in-range 64-bit integers exactly. -/
theorem push_then_pull_returns_payload
    (st st' : CUDADataManager) (d : DataFeedItem)
    (hfresh : findArr st.arrays d.name = none)
    (hpush : push_data_to_device st [d] = .ok st') :
    pull_data_from_device st' d.name
      = .ok (d.data.map normalizeElem, st')
    ∧ (∀ q : ℚ, |devQ (normalizeElem (HostVal.f64 q)) - q| ≤ 1 / 2 ^ 24)
    ∧ (∀ z : Int, -(2 ^ 31) ≤ z → z < 2 ^ 31 →
        normalizeElem (HostVal.i64 z) = DevVal.i32 z) := by
  have hone : pushOne st d
      = .ok { st with
                arrays := (d.name, mkDeviceArray st.episode_length d)
                            :: st.arrays } := by
    simp [pushOne, hfresh]
  simp only [push_data_to_device, hone, Except.ok.injEq] at hpush
  subst hpush
  refine ⟨?_, ?_, ?_⟩
  · have hv : (mkDeviceArray st.episode_length d).vals.getD 0 []
        = d.data.map normalizeElem := by
      unfold mkDeviceArray
      cases hb : d.log_data_across_episode <;> simp [hb]
    simp only [pull_data_from_device, findArr_cons_self, hv]
  · intro q
    show |(castF32 q : ℚ) / 2 ^ 23 - q| ≤ 1 / 2 ^ 24
    exact castF32_error_bound q
  · intro z h1 h2
    show DevVal.i32 (wrap32 z) = DevVal.i32 z
    rw [wrap32_id z h1 h2]

theorem push_then_pull_returns_payload_witness :
    pull_data_from_device c1Pushed "w"
      = .ok (c1Item.data.map normalizeElem, c1Pushed)
    ∧ |devQ (normalizeElem (HostVal.f64 (1 / 3))) - 1 / 3| ≤ 1 / 2 ^ 24 := by
  obtain ⟨h1, h2, h3⟩ := push_then_pull_returns_payload c1Store c1Pushed
    c1Item (by decide) (by decide)
  exact ⟨h1, h2 (1 / 3)⟩

/-- Claim C2: for an array pushed with a reset snapshot, a reset invocation
rewrites, for every environment whose done flag is true, exactly that
environment's slice back to the snapshot; slices of environments whose flag
is false are unchanged; arrays without a snapshot are untouched; and the
done flags of the reset environments are cleared by the same invocation. -/
theorem reset_restores_done_env_slices
    (st : CUDADataManager) (name : String) (a : DeviceArray)
    (snap : List DevVal) (rest : List Nat) (e : Nat)
    (hfind : findArr st.arrays name = some a)
    (hsnap : a.resetSnapshot = some snap)
    (hshape : a.shape = st.num_envs :: rest)
    (hsnaplen : snap.length = st.num_envs * rest.prod)
    (hcurlen : (a.vals.getD 0 []).length = st.num_envs * rest.prod)
    (hkpos : 0 < rest.prod)
    (hflags : st.done_flags.length = st.num_envs)
    (he : e < st.num_envs) :
    (st.done_flags.getD e false = true →
       envSlice rest.prod e (pulled (reset st) name)
         = envSlice rest.prod e snap)
    ∧ (st.done_flags.getD e false = false →
       envSlice rest.prod e (pulled (reset st) name)
         = envSlice rest.prod e (a.vals.getD 0 []))
    ∧ (∀ (n2 : String) (b : DeviceArray), findArr st.arrays n2 = some b →
         b.resetSnapshot = none →
         findArr (reset st).arrays n2 = some b)
    ∧ (reset st).done_flags.getD e false = false := by
  have hfound : findArr (reset st).arrays name
      = some (resetArray st.done_flags a) := by
    show findArr
      (st.arrays.map (fun p => (p.1, resetArray st.done_flags p.2))) name
      = some (resetArray st.done_flags a)
    rw [findArr_map_pairs, hfind]
    rfl
  have hvpos : 0 < a.vals.length := by
    by_contra hq
    have hz : a.vals.length = 0 := by omega
    have hnil : a.vals = [] := List.length_eq_zero.mp hz
    have h0 : (a.vals.getD 0 []).length = 0 := by rw [hnil]; rfl
    rw [hcurlen] at h0
    have hp : 0 < st.num_envs * rest.prod := Nat.mul_pos (by omega) hkpos
    omega
  have hra : resetArray st.done_flags a
      = { a with
            vals := a.vals.set 0
              (resetData rest.prod st.done_flags snap
                (a.vals.getD 0 [])) } := by
    rw [resetArray_of_snap _ _ snap hsnap, hshape]
    rfl
  have hpull : pulled (reset st) name
      = resetData rest.prod st.done_flags snap (a.vals.getD 0 []) := by
    unfold pulled pull_data_from_device
    rw [hfound, hra]
    exact getD_set_self _ [] a.vals 0 hvpos
  have hsl : (e + 1) * rest.prod ≤ snap.length := by
    rw [hsnaplen]
    exact Nat.mul_le_mul_right _ (by omega)
  have hdl : (e + 1) * rest.prod ≤ (a.vals.getD 0 []).length := by
    rw [hcurlen]
    exact Nat.mul_le_mul_right _ (by omega)
  have helen : e < st.done_flags.length := by omega
  refine ⟨?_, ?_, ?_, ?_⟩
  · intro htrue
    rw [hpull]
    exact envSlice_resetData_flagged rest.prod e st.done_flags snap _
      helen htrue hsl hdl
  · intro hfalse
    rw [hpull]
    exact envSlice_resetData_unflagged rest.prod e st.done_flags snap _
      helen hfalse hsl hdl
  · intro n2 b hb hnone
    show findArr
      (st.arrays.map (fun p => (p.1, resetArray st.done_flags p.2))) n2
      = some b
    rw [findArr_map_pairs, hb]
    simp [resetArray_of_none _ _ hnone]
  · exact getD_map_const_false st.done_flags e

theorem reset_restores_done_env_slices_witness :
    envSlice 1 0 (pulled (reset c2Store) "a")
      = envSlice 1 0 [DevVal.f32 0, DevVal.f32 1]
    ∧ envSlice 1 1 (pulled (reset c2Store) "a")
      = envSlice 1 1 [DevVal.f32 5, DevVal.f32 6]
    ∧ (reset c2Store).done_flags.getD 0 false = false := by
  obtain ⟨h1, _, _, h4⟩ := reset_restores_done_env_slices c2Store "a" c2Arr
    [DevVal.f32 0, DevVal.f32 1] [1] 0 (by decide) (by decide) (by decide)
    (by decide) (by decide) (by decide) (by decide) (by decide)
  obtain ⟨_, h2, _, _⟩ := reset_restores_done_env_slices c2Store "a" c2Arr
    [DevVal.f32 0, DevVal.f32 1] [1] 1 (by decide) (by decide) (by decide)
    (by decide) (by decide) (by decide) (by decide) (by decide)
  exact ⟨h1 (by decide), h2 (by decide), h4⟩

/-- Claim C10: a descriptor added via DataFeed.add_data without the optional
flags behaves identically to one added with both flags explicitly false: the
pushed array carries no reset snapshot (reset skips it), no episode time
axis, and is never touched by a logging step. -/
theorem add_data_defaults_inert
    (feed : DataFeed) (name : String) (shape : List Nat)
    (data : List HostVal) :
    DataFeed.add_data feed name shape data
      = DataFeed.add_data feed name shape data false false
    ∧ (∀ (st st' : CUDADataManager),
        findArr st.arrays name = none →
        push_data_to_device st (DataFeed.add_data [] name shape data)
          = .ok st' →
        ∃ a, findArr st'.arrays name = some a
          ∧ a.resetSnapshot = none
          ∧ a.isLogged = false
          ∧ a.vals = [data.map normalizeElem]
          ∧ (∀ flags, resetArray flags a = a)
          ∧ (∀ t, logArrayStep t a = a)) := by
  constructor
  · rfl
  · intro st st' hfresh hpush
    have hone : pushOne st ⟨ name, shape, data, false, false ⟩
        = .ok { st with
                  arrays :=
                    (name,
                      mkDeviceArray st.episode_length
                        ⟨ name, shape, data, false, false ⟩) :: st.arrays } := by
      simp [pushOne, hfresh]
    have hfeed : DataFeed.add_data [] name shape data
        = [⟨ name, shape, data, false, false ⟩] := rfl
    rw [hfeed] at hpush
    simp only [push_data_to_device, hone, Except.ok.injEq] at hpush
    subst hpush
    refine ⟨mkDeviceArray st.episode_length ⟨ name, shape, data, false, false ⟩,
      findArr_cons_self _ _ _, rfl, rfl, rfl, ?_, ?_⟩
    · intro flags
      exact resetArray_of_none _ _ rfl
    · intro t
      rfl

theorem add_data_defaults_inert_witness :
    DataFeed.add_data ([] : DataFeed) "y" [1, 1] [HostVal.f64 0]
      = DataFeed.add_data [] "y" [1, 1] [HostVal.f64 0] false false
    ∧ ∃ a, findArr c10Pushed.arrays "y" = some a
        ∧ a.resetSnapshot = none
        ∧ a.isLogged = false := by
  obtain ⟨h1, h2⟩ :=
    add_data_defaults_inert [] "y" [1, 1] [HostVal.f64 0]
  obtain ⟨a, g1, g2, g3, _, _, _⟩ :=
    h2 c10Base c10Pushed (by decide) (by decide)
  exact ⟨h1, a, g1, g2, g3⟩

/-- Claim C5: the end-to-end notebook scenario: a (2 envs, 3 agents) float
array of zeros pushed with a reset snapshot; one launch of the
add-(env_id + agent_id) kernel pulls back as rows (0,1,2) and (1,2,3); a
second launch doubles the increments to rows (0,2,4) and (2,4,6); after
marking environment 0 done and resetting, row 0 returns to zeros while row 1
keeps (2,4,6).  qf n is the float of integer value n (devQ (qf n) = n,
final conjunct). -/
theorem increment_reset_scenario :
    pulled stepStore1 "random_data" = [qf 0, qf 1, qf 2, qf 1, qf 2, qf 3]
    ∧ envSlice 3 0 (pulled stepStore1 "random_data") = [qf 0, qf 1, qf 2]
    ∧ envSlice 3 1 (pulled stepStore1 "random_data") = [qf 1, qf 2, qf 3]
    ∧ pulled stepStore2 "random_data"
        = [qf 0, qf 2, qf 4, qf 2, qf 4, qf 6]
    ∧ envSlice 3 0 (pulled resetStore "random_data") = [qf 0, qf 0, qf 0]
    ∧ envSlice 3 1 (pulled resetStore "random_data") = [qf 2, qf 4, qf 6]
    ∧ (∀ n : Int, devQ (qf n) = (n : ℚ)) := by
  refine ⟨by decide, by decide, by decide, by decide, by decide, by decide,
    ?_⟩
  intro n
  show ((n * 2 ^ 23 : Int) : ℚ) / 2 ^ 23 = (n : ℚ)
  rw [Int.cast_mul, mul_div_assoc]
  norm_num

/-- Claim C7 counterexample: in a two-step logged episode whose live value
changes between log_step 0 and log_step 1, the fetched time-index-0 slice no
longer equals the value the array held at the moment log_step 0 was called
(the first entry of c7Vals); it holds the last-written live value. -/
theorem log_step_zero_slice_overwritten_cex :
    (fetch_episode c7Final "x").getD 0 [] ≠ c7Vals.getD 0 []
    ∧ (fetch_episode c7Final "x").getD 0 [] = [DevVal.f32 1] := by
  decide

/-- Claim C7 (amended): for a freshly pushed logged array, after log_step t
for the steps taken so far: every time index t with 1 ≤ t holds the array's
value at the moment log_step t was called; time index 0 holds the live
mutable value, which is the most recently written value (it coincides with
the value at log_step 0 only when nothing was written afterwards); and every
time index not yet written still holds the zero fill established at push. -/
theorem log_episode_trace_amended
    (st st1 : CUDADataManager) (d : DataFeedItem)
    (vs : List (List DevVal))
    (hlogflag : d.log_data_across_episode = true)
    (hfresh : findArr st.arrays d.name = none)
    (hpush : push_data_to_device st [d] = .ok st1)
    (hvs : vs.length ≤ st.episode_length)
    (hpos : 0 < st.episode_length) :
    (∀ t, 1 ≤ t → t < vs.length →
       (fetch_episode (runLog d.name 0 vs st1) d.name).getD t []
         = vs.getD t [])
    ∧ (vs ≠ [] →
       (fetch_episode (runLog d.name 0 vs st1) d.name).getD 0 []
         = vs.getD (vs.length - 1) [])
    ∧ (∀ u, vs.length ≤ u → 1 ≤ u → u < st.episode_length →
       (fetch_episode (runLog d.name 0 vs st1) d.name).getD u []
         = List.replicate (d.data.map normalizeElem).length
             (DevVal.f32 0)) := by
  have hone : pushOne st d
      = .ok { st with
                arrays := (d.name, mkDeviceArray st.episode_length d)
                            :: st.arrays } := by
    simp [pushOne, hfresh]
  simp only [push_data_to_device, hone, Except.ok.injEq] at hpush
  subst hpush
  set A := mkDeviceArray st.episode_length d with hA
  have hAvals : A.vals
      = (d.data.map normalizeElem)
          :: List.replicate (st.episode_length - 1)
               (List.replicate (d.data.map normalizeElem).length
                 (DevVal.f32 0)) := by
    simp [hA, mkDeviceArray, hlogflag]
  have hAlog : A.isLogged = true := by
    simp [hA, mkDeviceArray, hlogflag]
  have hAlen : A.vals.length = st.episode_length := by
    rw [hAvals]
    simp only [List.length_cons, List.length_replicate]
    omega
  have hApos : 0 < A.vals.length := by omega
  have hrun := runLog_findArr d.name vs 0
    { st with arrays := (d.name, A) :: st.arrays } A
    (findArr_cons_self _ _ _) hAlog hApos
  have hfetch : fetch_episode
      (runLog d.name 0 vs { st with arrays := (d.name, A) :: st.arrays })
      d.name = arrayRun 0 vs A.vals := by
    unfold fetch_episode
    rw [hrun]
    rfl
  refine ⟨?_, ?_, ?_⟩
  · intro t h1 h2
    rw [hfetch]
    have hw := arrayRun_getD_written vs 0 A.vals t h2 (by omega) (by omega)
    simpa using hw
  · intro hne
    rw [hfetch]
    exact arrayRun_getD_zero vs 0 A.vals hne hApos
  · intro u hu1 hu2 hu3
    rw [hfetch]
    rw [arrayRun_getD_untouched vs 0 A.vals u (by omega) (Or.inr (by omega))]
    rw [hAvals]
    cases u with
    | zero => omega
    | succ u2 =>
      show (List.replicate (st.episode_length - 1)
        (List.replicate (d.data.map normalizeElem).length
          (DevVal.f32 0))).getD u2 [] = _
      exact getD_replicate_lt _ [] _ u2 (by omega)

theorem log_episode_trace_amended_witness :
    (fetch_episode c7Final "x").getD 1 [] = [DevVal.f32 1]
    ∧ (fetch_episode c7Final "x").getD 0 [] = [DevVal.f32 1] := by
  obtain ⟨h1, h2, h3⟩ := log_episode_trace_amended c7Store c7Pushed c7Item
    c7Vals (by decide) (by decide) (by decide) (by decide) (by decide)
  exact ⟨h1 1 (by omega) (by decide), h2 (by decide)⟩

/-- Claim C8: the Action Sampler is agentwise deterministic and isolated:
agent i's sampled action at every call depends only on agent i's own seed
and agent i's own logits slice at each call, so two runs agreeing on those
(whatever the other agents' seeds and logits) produce bit-identical action
sequences for agent i; with all seeds and all calls equal this gives
bit-identical full runs. -/
theorem sampler_agentwise_deterministic (i : Nat) :
    ∀ (calls1 calls2 : List (List (List ℚ))) (seeds1 seeds2 : List Nat),
      seeds1.length = seeds2.length →
      i < seeds1.length →
      calls1.length = calls2.length →
      (∀ c ∈ calls1, c.length = seeds1.length) →
      (∀ c ∈ calls2, c.length = seeds2.length) →
      seeds1.getD i 0 = seeds2.getD i 0 →
      (∀ t, t < calls1.length →
        (calls1.getD t []).getD i [] = (calls2.getD t []).getD i []) →
      ∀ t, t < calls1.length →
        ((runSampler seeds1 calls1).getD t []).getD i 0
          = ((runSampler seeds2 calls2).getD t []).getD i 0 := by
  intro calls1
  induction calls1 with
  | nil =>
    intro calls2 seeds1 seeds2 _ _ _ _ _ _ _ t ht
    simp at ht
  | cons c1 cs1 ih =>
    intro calls2 seeds1 seeds2 hslen hi hclen hcall1 hcall2 hseed hlog t ht
    cases calls2 with
    | nil => simp at hclen
    | cons c2 cs2 =>
      have hc1 : c1.length = seeds1.length :=
        hcall1 c1 (List.mem_cons_self _ _)
      have hc2 : c2.length = seeds2.length :=
        hcall2 c2 (List.mem_cons_self _ _)
      have hear : sampleAgent (c1.getD i []) (seeds1.getD i 0)
          = sampleAgent (c2.getD i []) (seeds2.getD i 0) := by
        have h0 := hlog 0 (by simp)
        simp only [List.getD_cons_zero] at h0
        rw [h0, hseed]
      cases t with
      | zero =>
        show (List.zipWith (fun l s => (sampleAgent l s).1) c1 seeds1).getD
            i 0
          = (List.zipWith (fun l s => (sampleAgent l s).1) c2 seeds2).getD
            i 0
        rw [getD_zipWith _ [] 0 0 c1 seeds1 i (by omega) hi,
          getD_zipWith _ [] 0 0 c2 seeds2 i (by omega) (by omega),
          hear]
      | succ t2 =>
        have hstates :
            (List.zipWith (fun l s => (sampleAgent l s).2) c1 seeds1).getD
                i 0
              = (List.zipWith (fun l s => (sampleAgent l s).2) c2
                  seeds2).getD i 0 := by
          rw [getD_zipWith _ [] 0 0 c1 seeds1 i (by omega) hi,
            getD_zipWith _ [] 0 0 c2 seeds2 i (by omega) (by omega),
            hear]
        have hs1len :
            (List.zipWith (fun l s => (sampleAgent l s).2) c1
              seeds1).length = seeds1.length := by
          simp [List.length_zipWith, hc1]
        have hs2len :
            (List.zipWith (fun l s => (sampleAgent l s).2) c2
              seeds2).length = seeds2.length := by
          simp [List.length_zipWith, hc2]
        show ((runSampler
            (List.zipWith (fun l s => (sampleAgent l s).2) c1 seeds1)
            cs1).getD t2 []).getD i 0
          = ((runSampler
              (List.zipWith (fun l s => (sampleAgent l s).2) c2 seeds2)
              cs2).getD t2 []).getD i 0
        have harg4 : ∀ c ∈ cs1, c.length
            = (List.zipWith (fun l s => (sampleAgent l s).2) c1
                seeds1).length := by
          intro c hc
          rw [hs1len]
          exact hcall1 c (List.mem_cons_of_mem _ hc)
        have harg5 : ∀ c ∈ cs2, c.length
            = (List.zipWith (fun l s => (sampleAgent l s).2) c2
                seeds2).length := by
          intro c hc
          rw [hs2len]
          exact hcall2 c (List.mem_cons_of_mem _ hc)
        have harg7 : ∀ t3, t3 < cs1.length →
            (cs1.getD t3 []).getD i [] = (cs2.getD t3 []).getD i [] := by
          intro t3 ht3
          have hh := hlog (t3 + 1)
            (by simp only [List.length_cons]; omega)
          simpa using hh
        exact ih cs2 _ _
          (by rw [hs1len, hs2len]; exact hslen)
          (by rw [hs1len]; exact hi)
          (by simpa using hclen)
          harg4 harg5 hstates harg7
          t2 (by simp only [List.length_cons] at ht; omega)

theorem sampler_agentwise_deterministic_witness :
    ((runSampler [3, 5] c8CallsA).getD 0 []).getD 1 0
      = ((runSampler [10, 5] c8CallsB).getD 0 []).getD 1 0 := by
  exact sampler_agentwise_deterministic 1 c8CallsA c8CallsB [3, 5] [10, 5]
    (by decide) (by decide) (by decide) (by decide) (by decide) (by decide)
    (fun t ht => by
      cases t with
      | zero => decide
      | succ t2 =>
        have hlen : c8CallsA.length = 1 := rfl
        omega)
    0 (by decide)
